import Mathlib

/-!
Verification of the preprocessing pipeline in `Homework1/preprocess.py`.

The pipeline turns raw summarization records into two processed-record lists
(sequence tagging and sequence to sequence) and assembles each into a
length-bounded dataset container.  Strings are modelled as `List Char`
(Python `str` indexing is by code point), Python slicing and list indexing
are modelled by `pySlice` and `pyIndex`, and a raised exception that
propagates out of a per-record transform is modelled by `Option` (`none`
means the whole split fails).  The tokenizer (`utils.Tokenizer`) is an
external collaborator; it is modelled as an abstract structure of pure
functions, exactly the interface `preprocess.py` uses.
-/

/-- The tokenizer adapter interface used by `preprocess.py`:
`tokenize` (sub-token list, only its length is consumed), `encode`
(token-id list) and the three reserved indices. -/
structure Tokenizer where
  tokenize : List Char → List (List Char)
  encode : List Char → List Nat
  bos_token_idx : Nat
  eos_token_idx : Nat
  pad_token_idx : Nat

/-- Normalisation of one slice endpoint, as Python does for `xs[a:b]`:
negative indices count from the end, then both are clamped into `[0, len]`. -/
def pyNormIdx (len : Nat) (i : Int) : Nat :=
  if i < 0 then (i + len).toNat else min i.toNat len

/-- Python slicing `xs[a:b]` (step 1): total for all integer endpoints,
yielding a possibly empty or clipped contiguous sublist. -/
def pySlice {α : Type} (xs : List α) (a b : Int) : List α :=
  (xs.take (pyNormIdx xs.length b)).drop (pyNormIdx xs.length a)

/-- Python list indexing `xs[i]`: negative indices in `[-len, -1]` count from
the end; anything outside `[-len, len)` raises `IndexError` (here `none`). -/
def pyIndex {α : Type} (xs : List α) (i : Int) : Option α :=
  if 0 ≤ i then xs.get? i.toNat
  else if 0 ≤ i + xs.length then xs.get? (i + xs.length).toNat
  else none

/-- One raw input record (a parsed JSON line). -/
structure Sample where
  id : String
  text : List Char
  sent_bounds : List (Int × Int)
  extractive_summary : Option Int
  summary : Option (List Char)

/-- The loop body of `get_tokens_range`, with the running token offset
(`token_start` in the source) made explicit. -/
def getTokensRangeAux (tok : Tokenizer) (text : List Char) (token_start : Nat) :
    List (Int × Int) → List (Nat × Nat)
  | [] => []
  | (char_start, char_end) :: rest =>
    let sent := pySlice text char_start char_end
    let token_end := token_start + (tok.tokenize sent).length
    (token_start, token_end) :: getTokensRangeAux tok text token_end rest

/-- `get_tokens_range(tokenizer, sample)`: transform character-offset
sentence bounds into token-index spans by tokenizing each substring
independently and accumulating a running offset starting at 0. -/
def get_tokens_range (tok : Tokenizer) (sample : Sample) : List (Nat × Nat) :=
  getTokensRangeAux tok sample.text 0 sample.sent_bounds

/-- One processed sequence-tagging record (the dict built in
`process_seq_tag_samples`). -/
structure TagRecord where
  id : String
  text : List Nat
  sent_range : List (Nat × Nat)
  label : Option (List Nat)
deriving DecidableEq

/-- The label list comprehension:
`[1 if label_start <= i < label_end else 0 for i in range(n)]`. -/
def mkLabel (label_start label_end n : Nat) : List Nat :=
  (List.range n).map fun i => if label_start ≤ i ∧ i < label_end then 1 else 0

/-- The per-record body of `process_seq_tag_samples`.
`some none` means the record was skipped (`continue` on empty
`sent_bounds`), `none` means an `IndexError` escaped (invalid
`extractive_summary`), `some (some r)` means record `r` was appended. -/
def processSeqTagSample (tok : Tokenizer) (sample : Sample) :
    Option (Option TagRecord) :=
  if sample.sent_bounds = [] then some none else
    let text := tok.encode sample.text
    let sent_range := get_tokens_range tok sample
    match sample.extractive_summary with
    | none => some (some ⟨sample.id, text, sent_range, none⟩)
    | some idx =>
      match pyIndex sent_range idx with
      | none => none
      | some (label_start, label_end) =>
        some (some ⟨sample.id, text, sent_range,
          some (mkLabel label_start label_end text.length)⟩)

/-- `process_seq_tag_samples(tokenizer, samples)`: the loop over samples.
An exception on any record aborts the whole split (`none`). -/
def process_seq_tag_samples (tok : Tokenizer) :
    List Sample → Option (List TagRecord)
  | [] => some []
  | sample :: rest => do
    let r ← processSeqTagSample tok sample
    let rs ← process_seq_tag_samples tok rest
    match r with
    | none => pure rs
    | some p => pure (p :: rs)

/-- One processed sequence-to-sequence record (the dict built in
`process_seq2seq_samples`). -/
structure S2SRecord where
  id : String
  text : List Nat
  summary : Option (List Nat)
deriving DecidableEq

/-- The per-record body of `process_seq2seq_samples`: every record is kept;
`text` gets a trailing EOS, and a present summary is framed BOS … EOS. -/
def processSeq2SeqSample (tok : Tokenizer) (sample : Sample) : S2SRecord :=
  ⟨sample.id,
   tok.encode sample.text ++ [tok.eos_token_idx],
   sample.summary.map fun s =>
     tok.bos_token_idx :: (tok.encode s ++ [tok.eos_token_idx])⟩

/-- `process_seq2seq_samples(tokenizer, samples)`: the loop over samples. -/
def process_seq2seq_samples (tok : Tokenizer) (samples : List Sample) :
    List S2SRecord :=
  samples.map (processSeq2SeqSample tok)

/-- The sequence-tagging dataset container (`SeqTaggingDataset`). -/
structure SeqTaggingDataset where
  samples : List TagRecord
  padding : Nat
  max_text_len : Nat
deriving DecidableEq

/-- Modelled from the spec: the class `SeqTaggingDataset` lives in
`dataset.py`, which is not among the provided sources.  Section 4.4 of the
spec states that construction truncates each record's document token
sequence to `max_text_len` when longer (keeping the prefix, dropping the
suffix), leaves it as is otherwise, performs no eager padding, and records
the padding index and the length cap. -/
def SeqTaggingDataset.assemble (samples : List TagRecord)
    (padding max_text_len : Nat) : SeqTaggingDataset :=
  ⟨samples.map fun p => ⟨p.id, p.text.take max_text_len, p.sent_range, p.label⟩,
   padding, max_text_len⟩

/-- `create_seq_tag_dataset`: assembles the tagging dataset with the
hard-coded cap `max_text_len=300` from the call site. -/
def create_seq_tag_dataset (samples : List TagRecord) (padding : Nat) :
    SeqTaggingDataset :=
  SeqTaggingDataset.assemble samples padding 300

/-- The sequence-to-sequence dataset container (`Seq2SeqDataset`). -/
structure Seq2SeqDataset where
  samples : List S2SRecord
  padding : Nat
  max_text_len : Nat
  max_summary_len : Nat
deriving DecidableEq

/-- Modelled from the spec: the class `Seq2SeqDataset` lives in
`dataset.py`, which is not among the provided sources.  Section 4.4 of the
spec states that construction truncates the document token sequence to
`max_text_len` and, independently, the summary token sequence to
`max_summary_len`, keeping prefixes, with no eager padding. -/
def Seq2SeqDataset.assemble (samples : List S2SRecord)
    (padding max_text_len max_summary_len : Nat) : Seq2SeqDataset :=
  ⟨samples.map fun p =>
     ⟨p.id, p.text.take max_text_len, p.summary.map (List.take max_summary_len)⟩,
   padding, max_text_len, max_summary_len⟩

/-- `create_seq2seq_dataset`: assembles the seq2seq dataset with the
hard-coded caps `max_text_len=300`, `max_summary_len=80` from the call site. -/
def create_seq2seq_dataset (samples : List S2SRecord) (padding : Nat) :
    Seq2SeqDataset :=
  Seq2SeqDataset.assemble samples padding 300 80

/-- Token count of one character span, as the spec describes it: tokenize
the substring `text[s:e]` in isolation and count the tokens. -/
def spanCount (tok : Tokenizer) (text : List Char) (b : Int × Int) : Nat :=
  (tok.tokenize (pySlice text b.1 b.2)).length

/-- The per-span token counts of a bounds list. -/
def countsOf (tok : Tokenizer) (text : List Char) (bounds : List (Int × Int)) :
    List Nat :=
  bounds.map (spanCount tok text)

/-- The running token offset before span `j`, as the spec describes it:
the sum of the token counts of the spans before it. -/
def specOffset (tok : Tokenizer) (text : List Char)
    (bounds : List (Int × Int)) (j : Nat) : Nat :=
  ((countsOf tok text bounds).take j).sum

/-- `partitionsFrom len pos bounds`: the spans in `bounds` tile the
character positions `[pos, len)` contiguously, in order, with no gaps and
no overlaps. -/
def partitionsFrom (len : Nat) : Nat → List (Int × Int) → Bool
  | pos, [] => pos == len
  | pos, (s, e) :: rest =>
    (s == (pos : Int)) && (decide ((pos : Int) ≤ e)) &&
      partitionsFrom len e.toNat rest

/-- The character spans exactly partition a text of length `len`. -/
def exactlyPartitions (len : Nat) (bounds : List (Int × Int)) : Bool :=
  partitionsFrom len 0 bounds

/-- A concrete character-level tokenizer: one token per character, ids are
code points.  It tokenizes concatenations piecewise. -/
def charTok : Tokenizer :=
  ⟨fun cs => cs.map fun c => [c], fun cs => cs.map Char.toNat, 1, 2, 0⟩

/-- A concrete tokenizer that treats any nonempty string as a single token.
A legitimate instance of the adapter interface, used for counterexamples:
it is not concatenative across substring cuts. -/
def wholeTok : Tokenizer :=
  ⟨fun cs => if cs = [] then [] else [cs],
   fun cs => if cs = [] then [] else [7], 1, 2, 0⟩

/-- A record with a single empty character span. -/
def sampleE1 : Sample := ⟨"e1", ['a'], [(0, 0)], none, none⟩

/-- A two-character record whose spans cut between the characters, with the
second sentence chosen as extractive summary. -/
def sampleW2 : Sample := ⟨"w2", ['a', 'b'], [(0, 1), (1, 2)], some 1, none⟩

/-- Same shape as `sampleW2`, used with the non-concatenative tokenizer. -/
def sampleX2 : Sample := ⟨"x2", ['a', 'b'], [(0, 1), (1, 2)], some 1, none⟩

/-- A record with empty `sent_bounds`. -/
def sampleNB : Sample := ⟨"nb", ['a'], [], none, none⟩

/-- A record with non-empty `sent_bounds`. -/
def sampleYB : Sample := ⟨"yb", ['a'], [(0, 1)], none, none⟩

/-- A record carrying a summary, for the seq2seq builder. -/
def sampleW4 : Sample := ⟨"w4", ['a'], [(0, 1)], none, some ['c']⟩

/-- A record whose `extractive_summary` is out of range above. -/
def sampleW5 : Sample := ⟨"w5", ['a'], [(0, 1)], some 5, none⟩

/-- A record whose `extractive_summary` is negative but within `[-len, -1]`. -/
def sampleX5 : Sample := ⟨"x5", ['a'], [(0, 1)], some (-1), none⟩

/-- A partitioned two-character record, for coverage with `charTok`. -/
def sampleW6 : Sample := ⟨"w6", ['a', 'b'], [(0, 1), (1, 2)], none, none⟩

/-- A partitioned two-character record, for coverage with `wholeTok`. -/
def sampleX6 : Sample := ⟨"x6", ['a', 'b'], [(0, 1), (1, 2)], none, none⟩

/-- A partitioned two-character record, for the alignment invariants. -/
def sampleW9 : Sample := ⟨"w9", ['a', 'b'], [(0, 1), (1, 2)], none, none⟩

/-- A record with malformed spans: out of range, reversed, far out of
range, and negative offsets. -/
def sampleW10 : Sample :=
  ⟨"w10", ['a', 'b', 'c'], [(-5, 3), (2, 1), (10, 20), (1, -1)], none, none⟩

/-- A processed tagging record whose text is longer than the cap 300. -/
def bigTag : TagRecord := ⟨"big", List.range 301, [], none⟩

/-! ### Helper lemmas about the alignment loop -/

theorem getTokensRangeAux_length (tok : Tokenizer) (text : List Char) :
    ∀ (bounds : List (Int × Int)) (token_start : Nat),
      (getTokensRangeAux tok text token_start bounds).length = bounds.length
  | [], _ => rfl
  | _ :: rest, token_start => by
    simp [getTokensRangeAux, getTokensRangeAux_length tok text rest]

theorem specOffset_cons (tok : Tokenizer) (text : List Char)
    (b : Int × Int) (rest : List (Int × Int)) (j : Nat) :
    specOffset tok text (b :: rest) (j + 1) =
      spanCount tok text b + specOffset tok text rest j := by
  simp [specOffset, countsOf]

theorem getTokensRangeAux_get? (tok : Tokenizer) (text : List Char) :
    ∀ (bounds : List (Int × Int)) (token_start j : Nat), j < bounds.length →
      (getTokensRangeAux tok text token_start bounds).get? j =
        some (token_start + specOffset tok text bounds j,
              token_start + specOffset tok text bounds (j + 1))
  | [], _, j, h => absurd h (by simp)
  | b :: rest, token_start, 0, _ => by
    simp [getTokensRangeAux, specOffset, countsOf, spanCount]
  | b :: rest, token_start, j + 1, h => by
    have ih := getTokensRangeAux_get? tok text rest
      (token_start + spanCount tok text b) j (by simpa using h)
    simp only [getTokensRangeAux, List.get?_cons_succ]
    rw [specOffset_cons, specOffset_cons]
    simp only [spanCount] at ih ⊢
    rw [ih]
    simp [Nat.add_assoc]

theorem getTokensRangeAux_le (tok : Tokenizer) (text : List Char) :
    ∀ (bounds : List (Int × Int)) (token_start : Nat)
      (p : Nat × Nat), p ∈ getTokensRangeAux tok text token_start bounds →
      p.1 ≤ p.2
  | [], _, p, h => absurd h (by simp [getTokensRangeAux])
  | b :: rest, token_start, p, h => by
    simp only [getTokensRangeAux, List.mem_cons] at h
    rcases h with h | h
    · subst h; simp
    · exact getTokensRangeAux_le tok text rest _ p h

/-! ### Helper lemmas about Python indexing and the label -/

theorem pyIndex_eq_none {α : Type} (xs : List α) (i : Int) :
    pyIndex xs i = none ↔
      (i < -(xs.length : Int) ∨ (xs.length : Int) ≤ i) := by
  unfold pyIndex
  split
  case isTrue h =>
    rw [List.get?_eq_none]
    omega
  case isFalse h =>
    split
    case isTrue h2 =>
      rw [List.get?_eq_none]
      omega
    case isFalse h2 =>
      simp
      omega

theorem pyIndex_mem {α : Type} {xs : List α} {i : Int} {a : α}
    (h : pyIndex xs i = some a) : a ∈ xs := by
  unfold pyIndex at h
  split at h
  · exact List.get?_mem h
  · split at h
    · exact List.get?_mem h
    · exact absurd h (by simp)

theorem mkLabel_length (ls le n : Nat) : (mkLabel ls le n).length = n := by
  simp [mkLabel]

theorem mkLabel_get? (ls le n i : Nat) (h : i < n) :
    (mkLabel ls le n).get? i = some (if ls ≤ i ∧ i < le then 1 else 0) := by
  simp only [mkLabel, List.get?_eq_getElem?, List.getElem?_map,
    List.getElem?_range h, Option.map_some']

theorem mkLabel_sum (ls le : Nat) (h : ls ≤ le) :
    ∀ n, (mkLabel ls le n).sum = min le n - min ls n
  | 0 => by simp [mkLabel]
  | n + 1 => by
    have ih := mkLabel_sum ls le h n
    simp only [mkLabel, List.range_succ, List.map_append, List.sum_append,
      List.map_cons, List.map_nil, List.sum_cons, List.sum_nil] at ih ⊢
    rw [ih]
    split_ifs with hc <;> omega

/-! ### Helper lemmas about partitions and concatenative tokenizers -/

theorem partitionsFrom_le (len : Nat) :
    ∀ (bounds : List (Int × Int)) (pos : Nat),
      partitionsFrom len pos bounds = true → pos ≤ len
  | [], pos, h => by
    simp [partitionsFrom] at h
    omega
  | (s, e) :: rest, pos, h => by
    simp only [partitionsFrom, Bool.and_eq_true, beq_iff_eq,
      decide_eq_true_eq] at h
    have ih := partitionsFrom_le len rest e.toNat h.2
    omega

theorem partitionsFrom_flatten (text : List Char) :
    ∀ (bounds : List (Int × Int)) (pos : Nat),
      partitionsFrom text.length pos bounds = true →
      (bounds.map fun b => pySlice text b.1 b.2).flatten = text.drop pos
  | [], pos, h => by
    simp [partitionsFrom] at h
    simp [h, List.drop_length]
  | (s, e) :: rest, pos, h => by
    simp only [partitionsFrom, Bool.and_eq_true, beq_iff_eq,
      decide_eq_true_eq] at h
    obtain ⟨⟨hs, hpe⟩, hrest⟩ := h
    have hlen : e.toNat ≤ text.length := partitionsFrom_le text.length rest e.toNat hrest
    have ih := partitionsFrom_flatten text rest e.toNat hrest
    subst hs
    simp only [List.map_cons, List.flatten_cons, ih]
    have hslice : pySlice text (pos : Int) e = (text.take e.toNat).drop pos := by
      simp only [pySlice, pyNormIdx]
      have h1 : ¬ ((pos : Int) < 0) := by omega
      have h2 : ¬ (e < 0) := by omega
      rw [if_neg h1, if_neg h2]
      have h3 : min e.toNat text.length = e.toNat := by omega
      have h4 : min ((pos : Int)).toNat text.length = pos := by omega
      rw [h3, h4]
    rw [hslice]
    conv_rhs => rw [← List.take_append_drop e.toNat text]
    rw [List.drop_append_eq_append_drop]
    have hz : pos - (text.take e.toNat).length = 0 := by
      rw [List.length_take]
      omega
    rw [hz, List.drop_zero]

theorem tokenize_nil_of_concat (tok : Tokenizer)
    (htok : ∀ a b, tok.tokenize (a ++ b) = tok.tokenize a ++ tok.tokenize b) :
    tok.tokenize [] = [] := by
  have h := htok [] []
  rw [List.nil_append] at h
  exact List.append_right_eq_self.mp h.symm

theorem tokenize_flatten (tok : Tokenizer)
    (htok : ∀ a b, tok.tokenize (a ++ b) = tok.tokenize a ++ tok.tokenize b) :
    ∀ (ls : List (List Char)),
      tok.tokenize ls.flatten = (ls.map tok.tokenize).flatten
  | [] => by simp [tokenize_nil_of_concat tok htok]
  | x :: xs => by
    simp only [List.flatten_cons, List.map_cons, htok]
    rw [tokenize_flatten tok htok xs]

theorem countsOf_sum (tok : Tokenizer) (text : List Char)
    (bounds : List (Int × Int))
    (htok : ∀ a b, tok.tokenize (a ++ b) = tok.tokenize a ++ tok.tokenize b)
    (hpart : exactlyPartitions text.length bounds = true) :
    (countsOf tok text bounds).sum = (tok.tokenize text).length := by
  have hj := partitionsFrom_flatten text bounds 0 hpart
  rw [List.drop_zero] at hj
  calc (countsOf tok text bounds).sum
      = ((bounds.map fun b => pySlice text b.1 b.2).map
          fun s => (tok.tokenize s).length).sum := by
        simp only [countsOf, List.map_map]
        rfl
    _ = (tok.tokenize ((bounds.map fun b => pySlice text b.1 b.2).flatten)).length := by
        rw [tokenize_flatten tok htok, List.length_flatten]
        simp only [List.map_map]
        rfl
    _ = (tok.tokenize text).length := by rw [hj]

/-! ### Bridging lemmas -/

theorem specOffset_succ (tok : Tokenizer) (text : List Char)
    {bounds : List (Int × Int)} {j : Nat} {b : Int × Int}
    (h : bounds.get? j = some b) :
    specOffset tok text bounds (j + 1) =
      specOffset tok text bounds j + spanCount tok text b := by
  rw [List.get?_eq_getElem?] at h
  simp only [specOffset, List.take_succ, List.sum_append, countsOf,
    List.getElem?_map, h, Option.map_some', Option.toList_some,
    List.sum_cons, List.sum_nil, Nat.add_zero]

theorem get_tokens_range_get? (tok : Tokenizer) (sample : Sample)
    {j : Nat} (h : j < sample.sent_bounds.length) :
    (get_tokens_range tok sample).get? j =
      some (specOffset tok sample.text sample.sent_bounds j,
            specOffset tok sample.text sample.sent_bounds (j + 1)) := by
  simpa [get_tokens_range] using
    getTokensRangeAux_get? tok sample.text sample.sent_bounds 0 j h

theorem pySlice_decomp {α : Type} (xs : List α) (a b : Int) :
    ∃ l r, xs = l ++ pySlice xs a b ++ r := by
  refine ⟨(xs.take (pyNormIdx xs.length b)).take (pyNormIdx xs.length a),
          xs.drop (pyNormIdx xs.length b), ?_⟩
  simp only [pySlice]
  conv_lhs => rw [← List.take_append_drop (pyNormIdx xs.length b) xs]
  conv_rhs => rw [List.take_append_drop]

theorem processSeqTagSample_skip (tok : Tokenizer) (sample : Sample) :
    processSeqTagSample tok sample = some none ↔ sample.sent_bounds = [] := by
  constructor
  · intro h
    by_contra hne
    cases hes : sample.extractive_summary with
    | none => simp [processSeqTagSample, hne, hes] at h
    | some idx =>
      cases hpi : pyIndex (get_tokens_range tok sample) idx with
      | none => simp [processSeqTagSample, hne, hes, hpi] at h
      | some p =>
        obtain ⟨ls, le⟩ := p
        simp [processSeqTagSample, hne, hes, hpi] at h
  · intro h
    unfold processSeqTagSample
    rw [if_pos h]

theorem processSeqTagSample_some (tok : Tokenizer) (sample : Sample)
    {p : TagRecord} (h : processSeqTagSample tok sample = some (some p)) :
    p.id = sample.id ∧ sample.sent_bounds ≠ [] := by
  by_cases hne : sample.sent_bounds = []
  · simp [processSeqTagSample, hne] at h
  · refine ⟨?_, hne⟩
    cases hes : sample.extractive_summary with
    | none =>
      simp only [processSeqTagSample, if_neg hne, hes,
        Option.some.injEq] at h
      rw [← h]
    | some idx =>
      cases hpi : pyIndex (get_tokens_range tok sample) idx with
      | none => simp [processSeqTagSample, hne, hes, hpi] at h
      | some q =>
        obtain ⟨ls, le⟩ := q
        simp only [processSeqTagSample, if_neg hne, hes, hpi,
          Option.some.injEq] at h
        rw [← h]

/-! ### The claims -/

/-- C1: the alignment engine returns one token-index span per input
character span: it keeps a running token offset starting at 0 and, for the
`j`-th character span, returns `(offset_j, offset_j + k_j)` where `k_j` is
the token count of tokenizing the substring `text[s_j:e_j]` in isolation
and `offset_j` is the sum of the counts of the earlier spans; an empty
character span raises no error and yields a zero-length span (the
tokenizer producing no tokens for the empty string). -/
theorem c1_alignment_offsets (tok : Tokenizer) (sample : Sample)
    (htok : tok.tokenize [] = []) :
    (get_tokens_range tok sample).length = sample.sent_bounds.length ∧
    (∀ j b, sample.sent_bounds.get? j = some b →
      (get_tokens_range tok sample).get? j =
        some (specOffset tok sample.text sample.sent_bounds j,
              specOffset tok sample.text sample.sent_bounds j +
                spanCount tok sample.text b)) ∧
    (∀ j b, sample.sent_bounds.get? j = some b →
      pySlice sample.text b.1 b.2 = [] →
      (get_tokens_range tok sample).get? j =
        some (specOffset tok sample.text sample.sent_bounds j,
              specOffset tok sample.text sample.sent_bounds j)) := by
  have hlen : (get_tokens_range tok sample).length = sample.sent_bounds.length :=
    getTokensRangeAux_length tok sample.text sample.sent_bounds 0
  have key : ∀ j b, sample.sent_bounds.get? j = some b →
      (get_tokens_range tok sample).get? j =
        some (specOffset tok sample.text sample.sent_bounds j,
              specOffset tok sample.text sample.sent_bounds j +
                spanCount tok sample.text b) := by
    intro j b hb
    have hj : j < sample.sent_bounds.length := by
      rw [List.get?_eq_some] at hb
      exact hb.1
    rw [get_tokens_range_get? tok sample hj, specOffset_succ tok sample.text hb]
  refine ⟨hlen, key, ?_⟩
  intro j b hb hempty
  have hcnt : spanCount tok sample.text b = 0 := by
    simp [spanCount, hempty, htok]
  have := key j b hb
  rw [hcnt, Nat.add_zero] at this
  exact this

/-- C1 witness: on a record with one empty span (`['a']`, span `(0,0)`) and
the character tokenizer, the alignment produces a zero-length first span. -/
theorem c1_alignment_offsets_witness :
    (get_tokens_range charTok sampleE1).get? 0 =
      some (specOffset charTok sampleE1.text sampleE1.sent_bounds 0,
            specOffset charTok sampleE1.text sampleE1.sent_bounds 0) :=
  (c1_alignment_offsets charTok sampleE1 (by simp [charTok])).2.2
    0 (0, 0) rfl (by decide)

/-- C9: the alignment result has one entry per input span in input order
(equal lengths), its first span starts at token index 0, consecutive spans
are contiguous (each span's start equals the previous span's end), and
every span satisfies `start ≤ end` (both bounds naturals, hence
non-negative). -/
theorem c9_alignment_invariants (tok : Tokenizer) (sample : Sample) :
    (get_tokens_range tok sample).length = sample.sent_bounds.length ∧
    ((get_tokens_range tok sample).getD 0 (0, 0)).1 = 0 ∧
    (∀ j, j + 1 < (get_tokens_range tok sample).length →
      ((get_tokens_range tok sample).getD (j + 1) (0, 0)).1 =
        ((get_tokens_range tok sample).getD j (0, 0)).2) ∧
    (∀ p, p ∈ get_tokens_range tok sample → p.1 ≤ p.2) := by
  have hlen : (get_tokens_range tok sample).length = sample.sent_bounds.length :=
    getTokensRangeAux_length tok sample.text sample.sent_bounds 0
  refine ⟨hlen, ?_, ?_, ?_⟩
  · cases hb : sample.sent_bounds with
    | nil =>
      simp [get_tokens_range, hb, getTokensRangeAux]
    | cons b rest =>
      have h0 : 0 < sample.sent_bounds.length := by rw [hb]; simp
      rw [List.getD_eq_get?, get_tokens_range_get? tok sample h0]
      simp [specOffset]
  · intro j hj
    rw [hlen] at hj
    rw [List.getD_eq_get?, List.getD_eq_get?,
      get_tokens_range_get? tok sample hj,
      get_tokens_range_get? tok sample (Nat.lt_of_succ_lt hj)]
    rfl
  · intro p hp
    exact getTokensRangeAux_le tok sample.text sample.sent_bounds 0 p hp

/-- C9 witness: on a concrete partitioned record, the second span starts
where the first ends. -/
theorem c9_alignment_invariants_witness :
    ((get_tokens_range charTok sampleW9).getD 1 (0, 0)).1 =
      ((get_tokens_range charTok sampleW9).getD 0 (0, 0)).2 :=
  (c9_alignment_invariants charTok sampleW9).2.2.1 0 (by decide)

/-- C10: the alignment engine is total for every character-span input:
regardless of out-of-range, reversed, overlapping or unordered offsets it
produces exactly one token span per entry, and each extracted substring is
a (possibly empty or clipped) contiguous sublist of the text. -/
theorem c10_alignment_total (tok : Tokenizer) (sample : Sample) :
    (get_tokens_range tok sample).length = sample.sent_bounds.length ∧
    ∀ b ∈ sample.sent_bounds,
      ∃ l r, sample.text = l ++ pySlice sample.text b.1 b.2 ++ r :=
  ⟨getTokensRangeAux_length tok sample.text sample.sent_bounds 0,
   fun b _ => pySlice_decomp sample.text b.1 b.2⟩

/-- C10 witness: on a record with malformed bounds (negative, reversed,
far out of range) the alignment still yields one span per entry and the
first slice is a contiguous sublist of the text. -/
theorem c10_alignment_total_witness :
    (get_tokens_range wholeTok sampleW10).length = 4 ∧
    ∃ l r, sampleW10.text = l ++ pySlice sampleW10.text (-5) 3 ++ r :=
  ⟨(c10_alignment_total wholeTok sampleW10).1.trans (by decide),
   (c10_alignment_total wholeTok sampleW10).2 (-5, 3) (by decide)⟩

/-- C2 (amended): for a tagging record in which a label is produced, the
label has the length of the encoded full text, position `i` is 1 exactly
when `label_start ≤ i < label_end`, and its sum is
`min label_end n - min label_start n` for `n` the encoded-text length,
which equals `label_end - label_start` whenever `label_end ≤ n`. -/
theorem c2_label_consistency (tok : Tokenizer) (sample : Sample)
    (idx : Int) (label_start label_end : Nat)
    (hb : sample.sent_bounds ≠ [])
    (he : sample.extractive_summary = some idx)
    (hi : pyIndex (get_tokens_range tok sample) idx =
      some (label_start, label_end)) :
    processSeqTagSample tok sample =
      some (some ⟨sample.id, tok.encode sample.text, get_tokens_range tok sample,
        some (mkLabel label_start label_end (tok.encode sample.text).length)⟩) ∧
    (mkLabel label_start label_end (tok.encode sample.text).length).length =
      (tok.encode sample.text).length ∧
    (∀ i, i < (tok.encode sample.text).length →
      (mkLabel label_start label_end (tok.encode sample.text).length).get? i =
        some (if label_start ≤ i ∧ i < label_end then 1 else 0)) ∧
    (mkLabel label_start label_end (tok.encode sample.text).length).sum =
      min label_end (tok.encode sample.text).length -
        min label_start (tok.encode sample.text).length ∧
    (label_end ≤ (tok.encode sample.text).length →
      (mkLabel label_start label_end (tok.encode sample.text).length).sum =
        label_end - label_start) := by
  have hle : label_start ≤ label_end := by
    have hmem := pyIndex_mem hi
    exact getTokensRangeAux_le tok sample.text sample.sent_bounds 0 _ hmem
  refine ⟨?_, mkLabel_length label_start label_end _,
    fun i hi2 => mkLabel_get? label_start label_end _ i hi2,
    mkLabel_sum label_start label_end hle _, ?_⟩
  · simp only [processSeqTagSample, if_neg hb, he, hi]
  · intro hn
    rw [mkLabel_sum label_start label_end hle]
    omega

/-- C2 witness: with the character tokenizer and a partitioned
two-character record whose second sentence is chosen, the produced label
sums to the chosen span's width. -/
theorem c2_label_consistency_witness :
    (mkLabel 1 2 (charTok.encode sampleW2.text).length).sum = 2 - 1 :=
  (c2_label_consistency charTok sampleW2 1 1 2 (by decide) rfl
    (by decide)).2.2.2.2 (by decide)

/-- C2 counterexample: with the whole-string tokenizer and a record whose
spans cut inside the single token, a label is produced whose sum is 0,
while `sent_ranges[extractive_summary] = (1, 2)` has width `2 - 1 = 1`. -/
theorem c2_label_sum_counterexample :
    sampleX2.extractive_summary = some 1 ∧
    (process_seq_tag_samples wholeTok [sampleX2]).map
      (List.map fun r => (r.label.getD []).sum) = some [0] ∧
    pyIndex (get_tokens_range wholeTok sampleX2) 1 = some (1, 2) ∧
    (2 : Nat) - 1 ≠ 0 := by decide

/-- C5 (amended): for a tagging record with non-empty `sent_bounds` and
`extractive_summary` present, the builder fails exactly when the index is
at least the number of sentence ranges or below the negated number:
Python-style negative indices in `[-len, -1]` wrap around and succeed. -/
theorem c5_invalid_label_index (tok : Tokenizer) (sample : Sample) (idx : Int)
    (hb : sample.sent_bounds ≠ [])
    (he : sample.extractive_summary = some idx) :
    processSeqTagSample tok sample = none ↔
      (idx < -(sample.sent_bounds.length : Int) ∨
       (sample.sent_bounds.length : Int) ≤ idx) := by
  have hlen : (get_tokens_range tok sample).length = sample.sent_bounds.length :=
    getTokensRangeAux_length tok sample.text sample.sent_bounds 0
  rw [← hlen, ← pyIndex_eq_none (get_tokens_range tok sample) idx]
  constructor
  · intro h
    cases hpi : pyIndex (get_tokens_range tok sample) idx with
    | none => rfl
    | some p =>
      obtain ⟨ls, le⟩ := p
      simp [processSeqTagSample, hb, he, hpi] at h
  · intro h
    simp only [processSeqTagSample, if_neg hb, he, h]

/-- C5 witness: an `extractive_summary` of 5 with a single sentence range
makes the builder fail. -/
theorem c5_invalid_label_index_witness :
    processSeqTagSample charTok sampleW5 = none :=
  (c5_invalid_label_index charTok sampleW5 5 (by decide) rfl).mpr (by decide)

/-- C5 counterexample: an `extractive_summary` of `-1` is negative, yet the
builder does not fail — Python's negative indexing wraps it to the last
sentence range and a record is emitted. -/
theorem c5_negative_index_counterexample :
    sampleX5.extractive_summary = some (-1) ∧
    processSeqTagSample wholeTok sampleX5 =
      some (some ⟨"x5", [7], [(0, 1)], some [1]⟩) := by decide

/-- C3: records with empty `sent_bounds` are dropped from the tagging list
but kept in the seq2seq list, and nothing else drops a record from either
list: when tagging processing succeeds, its output ids are exactly the ids
of the inputs with non-empty `sent_bounds`, and the seq2seq output ids are
exactly all input ids. -/
theorem c3_drop_policy (tok : Tokenizer) (samples : List Sample)
    (l : List TagRecord) (h : process_seq_tag_samples tok samples = some l) :
    l.map TagRecord.id =
      (samples.filter fun s => !s.sent_bounds.isEmpty).map Sample.id ∧
    (process_seq2seq_samples tok samples).map S2SRecord.id =
      samples.map Sample.id := by
  constructor
  · induction samples generalizing l with
    | nil =>
      simp only [process_seq_tag_samples, Option.some.injEq] at h
      subst h
      simp
    | cons s rest ih =>
      rw [process_seq_tag_samples] at h
      cases hr : processSeqTagSample tok s with
      | none => rw [hr] at h; simp at h
      | some r =>
        rw [hr] at h
        cases hrest : process_seq_tag_samples tok rest with
        | none => rw [hrest] at h; simp at h
        | some rs =>
          rw [hrest] at h
          cases r with
          | none =>
            simp at h
            subst h
            have hb := (processSeqTagSample_skip tok s).mp hr
            rw [List.filter_cons]
            simp only [hb, List.isEmpty_nil, Bool.not_true, if_neg]
            exact ih rs hrest
          | some p =>
            simp at h
            subst h
            obtain ⟨hid, hb⟩ := processSeqTagSample_some tok s hr
            rw [List.filter_cons]
            have hbe : s.sent_bounds.isEmpty = false := by
              cases hsb : s.sent_bounds with
              | nil => exact absurd hsb hb
              | cons x xs => rfl
            simp only [hbe, Bool.not_false, if_pos, List.map_cons, hid]
            rw [ih rs hrest]
  · simp only [process_seq2seq_samples, List.map_map]
    rfl

/-- C3 witness: processing a record without bounds followed by one with
bounds keeps only the latter in the tagging ids while the seq2seq ids list
both. -/
theorem c3_drop_policy_witness :
    [⟨"yb", [97], [(0, 1)], none⟩].map TagRecord.id =
      (([sampleNB, sampleYB].filter fun s => !s.sent_bounds.isEmpty).map
        Sample.id) ∧
    (process_seq2seq_samples charTok [sampleNB, sampleYB]).map S2SRecord.id =
      [sampleNB, sampleYB].map Sample.id :=
  c3_drop_policy charTok [sampleNB, sampleYB]
    [⟨"yb", [97], [(0, 1)], none⟩] (by decide)

/-- C4: every record the seq2seq builder emits comes from an input record
with the same id; its `text` is `encode(text) ++ [EOS]` (hence ends in
EOS); when the input has a summary, `summary` is
`BOS :: encode(summary) ++ [EOS]` (head BOS, last EOS, interior exactly
`encode(summary)`); when the input has no summary the field is omitted. -/
theorem c4_seq2seq_framing (tok : Tokenizer) (samples : List Sample)
    (p : S2SRecord) (hp : p ∈ process_seq2seq_samples tok samples) :
    ∃ s ∈ samples, p.id = s.id ∧
      p.text = tok.encode s.text ++ [tok.eos_token_idx] ∧
      p.text.getLast? = some tok.eos_token_idx ∧
      (s.summary = none → p.summary = none) ∧
      (∀ sm, s.summary = some sm →
        p.summary = some (tok.bos_token_idx ::
          (tok.encode sm ++ [tok.eos_token_idx])) ∧
        (p.summary.getD []).head? = some tok.bos_token_idx ∧
        (p.summary.getD []).getLast? = some tok.eos_token_idx ∧
        ((p.summary.getD []).drop 1).dropLast = tok.encode sm) := by
  rw [process_seq2seq_samples] at hp
  obtain ⟨s, hs, rfl⟩ := List.mem_map.mp hp
  refine ⟨s, hs, rfl, rfl, List.getLast?_concat _, ?_, ?_⟩
  · intro h
    simp [processSeq2SeqSample, h]
  · intro sm h
    refine ⟨?_, ?_, ?_, ?_⟩
    · simp [processSeq2SeqSample, h]
    · simp [processSeq2SeqSample, h]
    · simp only [processSeq2SeqSample, h, Option.map_some', Option.getD_some]
      rw [← List.cons_append, List.getLast?_concat]
    · simp only [processSeq2SeqSample, h, Option.map_some', Option.getD_some]
      rw [List.drop_one, List.tail_cons, List.dropLast_concat]

/-- C4 witness: the record carrying summary `['c']` yields a summary token
sequence framed BOS … EOS around its encoding. -/
theorem c4_seq2seq_framing_witness :
    (processSeq2SeqSample charTok sampleW4).summary =
      some (charTok.bos_token_idx ::
        (charTok.encode ['c'] ++ [charTok.eos_token_idx])) := by
  obtain ⟨s, hs, hid, htext, hlast, hnone, hsome⟩ :=
    c4_seq2seq_framing charTok [sampleW4]
      (processSeq2SeqSample charTok sampleW4)
      (by simp [process_seq2seq_samples])
  rw [List.mem_singleton] at hs
  subst hs
  exact (hsome ['c'] rfl).1

/-- C6 (amended): for a record whose character spans exactly partition the
full text with no gaps and no overlaps, the end of the last aligned span
equals the token count of encoding the whole document once — under the
additional assumptions that the tokenizer tokenizes concatenations
piecewise and that `encode` yields one id per token of `tokenize`. -/
theorem c6_alignment_coverage (tok : Tokenizer) (sample : Sample)
    (htok : ∀ a b, tok.tokenize (a ++ b) = tok.tokenize a ++ tok.tokenize b)
    (henc : (tok.encode sample.text).length = (tok.tokenize sample.text).length)
    (hpart : exactlyPartitions sample.text.length sample.sent_bounds = true)
    {p : Nat × Nat}
    (hlast : (get_tokens_range tok sample).getLast? = some p) :
    p.2 = (tok.encode sample.text).length := by
  have hlen : (get_tokens_range tok sample).length = sample.sent_bounds.length :=
    getTokensRangeAux_length tok sample.text sample.sent_bounds 0
  have hne : get_tokens_range tok sample ≠ [] := by
    intro h0
    rw [h0] at hlast
    simp at hlast
  have hpos : 0 < sample.sent_bounds.length := by
    rw [← hlen]
    exact List.length_pos.mpr hne
  have hget := get_tokens_range_get? tok sample
    (show sample.sent_bounds.length - 1 < sample.sent_bounds.length by omega)
  rw [List.getLast?_eq_get?, hlen] at hlast
  rw [hget] at hlast
  obtain rfl := Option.some.inj hlast
  show specOffset tok sample.text sample.sent_bounds
    (sample.sent_bounds.length - 1 + 1) = (tok.encode sample.text).length
  have hn : sample.sent_bounds.length - 1 + 1 = sample.sent_bounds.length := by
    omega
  rw [hn]
  have hS : specOffset tok sample.text sample.sent_bounds
      sample.sent_bounds.length =
      (countsOf tok sample.text sample.sent_bounds).sum := by
    rw [specOffset]
    congr 1
    apply List.take_of_length_le
    simp [countsOf]
  rw [hS, countsOf_sum tok sample.text sample.sent_bounds htok hpart, henc]

/-- C6 witness: with the concatenative character tokenizer on a partitioned
two-character record, the last span ends at the whole-text token count. -/
theorem c6_alignment_coverage_witness :
    (2 : Nat) = (charTok.encode sampleW6.text).length := by
  have hl : (get_tokens_range charTok sampleW6).getLast? = some (1, 2) := by
    decide
  exact c6_alignment_coverage charTok sampleW6
    (fun a b => by simp [charTok]) (by simp [charTok]) (by decide) hl

/-- C6 counterexample: with the whole-string tokenizer the spans exactly
partition the text, yet the last span ends at 2 while encoding the whole
text yields a single token. -/
theorem c6_alignment_coverage_counterexample :
    exactlyPartitions sampleX6.text.length sampleX6.sent_bounds = true ∧
    ((get_tokens_range wholeTok sampleX6).getLast?.map Prod.snd) ≠
      some ((wholeTok.encode sampleX6.text).length) := by decide

/-- C7: the per-record transforms are deterministic pure functions of the
tokenizer and the record list — no hidden mutable state exists in the
embedding, so two runs on identical input yield field-for-field identical
processed-record lists and an identical assembled seq2seq dataset. -/
theorem c7_determinism (tok : Tokenizer) (samples : List Sample)
    (padding : Nat) :
    process_seq_tag_samples tok samples = process_seq_tag_samples tok samples ∧
    process_seq2seq_samples tok samples = process_seq2seq_samples tok samples ∧
    create_seq2seq_dataset (process_seq2seq_samples tok samples) padding =
      create_seq2seq_dataset (process_seq2seq_samples tok samples) padding :=
  ⟨rfl, rfl, rfl⟩

/-- C8: the assembler is invoked with document cap 300 for both tasks and
summary cap 80 for seq2seq; each stored document sequence is `take 300` of
the raw one (and each stored summary `take 80`), and when the raw length
exceeds the cap the stored sequence has exactly 300 tokens and is a
prefix of the raw sequence (the raw one extends it). -/
theorem c8_truncation (tagSamples : List TagRecord)
    (s2sSamples : List S2SRecord) (padding : Nat) :
    (create_seq_tag_dataset tagSamples padding).max_text_len = 300 ∧
    (create_seq2seq_dataset s2sSamples padding).max_text_len = 300 ∧
    (create_seq2seq_dataset s2sSamples padding).max_summary_len = 80 ∧
    (∀ i p, tagSamples.get? i = some p →
      ∃ q, (create_seq_tag_dataset tagSamples padding).samples.get? i = some q ∧
        q.text = p.text.take 300 ∧
        (300 < p.text.length →
          q.text.length = 300 ∧ ∃ rest, p.text = q.text ++ rest)) ∧
    (∀ i p, s2sSamples.get? i = some p →
      ∃ q, (create_seq2seq_dataset s2sSamples padding).samples.get? i = some q ∧
        q.text = p.text.take 300 ∧
        q.summary = p.summary.map (List.take 80) ∧
        (300 < p.text.length →
          q.text.length = 300 ∧ ∃ rest, p.text = q.text ++ rest)) := by
  refine ⟨rfl, rfl, rfl, ?_, ?_⟩
  · intro i p hp
    refine ⟨⟨p.id, p.text.take 300, p.sent_range, p.label⟩, ?_, rfl, ?_⟩
    · rw [List.get?_eq_getElem?] at hp ⊢
      simp only [create_seq_tag_dataset, SeqTaggingDataset.assemble,
        List.getElem?_map, hp, Option.map_some']
    · intro hlen
      refine ⟨?_, p.text.drop 300, (List.take_append_drop 300 p.text).symm⟩
      rw [List.length_take]
      omega
  · intro i p hp
    refine ⟨⟨p.id, p.text.take 300, p.summary.map (List.take 80)⟩, ?_, rfl,
      rfl, ?_⟩
    · rw [List.get?_eq_getElem?] at hp ⊢
      simp only [create_seq2seq_dataset, Seq2SeqDataset.assemble,
        List.getElem?_map, hp, Option.map_some']
    · intro hlen
      refine ⟨?_, p.text.drop 300, (List.take_append_drop 300 p.text).symm⟩
      rw [List.length_take]
      omega

/-- C8 witness: a 301-token record is stored with exactly 300 tokens, and
the configured caps are 300 and 80. -/
theorem c8_truncation_witness :
    ((create_seq_tag_dataset [bigTag] 0).samples.get? 0).map
      (fun q => q.text.length) = some 300 ∧
    (create_seq2seq_dataset [] 0).max_summary_len = 80 := by
  obtain ⟨h1, h2, h3, h4, h5⟩ := c8_truncation [bigTag] [] 0
  obtain ⟨q, hq, hqt, hbig⟩ := h4 0 bigTag rfl
  refine ⟨?_, h3⟩
  rw [hq, Option.map_some']
  rw [(hbig (by simp [bigTag])).1]
